import Mathlib

/-!
Shallow embedding of the proxy-pool and retry logic of `roproxy-lite`
(`src/main.go`).  Pure data is modelled directly; the network is modelled by
an explicit failure oracle; `float64` quality signals are modelled as `Rat`;
Go `int` configuration values that may be negative are modelled as `Int`.
-/

/-- Embeds the Go struct `Proxy` of `src/main.go` (fields `ID, IP, Port,
Protocols, Latency, UpTime, ASN, Country, City, ISP, Speed`). -/
structure Proxy where
  id : String
  ip : String
  port : String
  protocols : List String
  latency : Rat
  upTime : Rat
  asn : String
  country : String
  city : String
  isp : String
  speed : Int

deriving instance DecidableEq for Proxy

/-- Embeds `hasValidProtocol` of `src/main.go`: the Go loop returns `true` as
soon as one protocol equals `socks4`, `socks5`, `https` or `http`. -/
def hasValidProtocol (protocols : List String) : Bool :=
  protocols.any (fun protocol =>
    protocol = "socks4" || protocol = "socks5" || protocol = "https" || protocol = "http")

/-- Helper embedding the loop body of `getProxyPriority` in `src/main.go`:
the Go `for`/`switch` returns the rank of the first recognized protocol in
list order and `0` when none is recognized. -/
def protocolPriorityScan : List String → Nat
  | [] => 0
  | s :: rest =>
    if s = "socks5" then 4
    else if s = "socks4" then 3
    else if s = "https" then 2
    else if s = "http" then 1
    else protocolPriorityScan rest

/-- Embeds `getProxyPriority` of `src/main.go`. -/
def getProxyPriority (p : Proxy) : Nat :=
  protocolPriorityScan p.protocols

/-- Priority of the entry at index `k` (the Go code only reads `sorted[i]`,
`sorted[j]` at in-bounds indices; out of bounds we return `0`). -/
def priAt (l : List Proxy) (k : Nat) : Nat :=
  match l[k]? with
  | some p => getProxyPriority p
  | none => 0

/-- The parallel assignment `sorted[i], sorted[j] = sorted[j], sorted[i]` of
`sortProxiesByPriority` in `src/main.go` (identity when out of bounds; the Go
code only executes it at in-bounds indices). -/
def lswap (l : List Proxy) (i j : Nat) : List Proxy :=
  match l[i]?, l[j]? with
  | some a, some b => (l.set i b).set j a
  | _, _ => l

/-- Inner `for j := i+1; j < len(sorted); j++` loop of `sortProxiesByPriority`
in `src/main.go`.  The first argument is fuel equal to the number of remaining
iterations (`l.length - j`); since the body preserves the length, the fuel
runs out exactly when the loop guard `j < len(sorted)` fails, so the `0` case
returns the list unchanged just as the guard would. -/
def innerLoopF : Nat → List Proxy → Nat → Nat → List Proxy
  | 0, l, _, _ => l
  | fuel + 1, l, i, j =>
    if j < l.length then
      innerLoopF fuel (if priAt l i < priAt l j then lswap l i j else l) i (j + 1)
    else l

/-- Inner loop of `sortProxiesByPriority`, started at column `j`. -/
def innerLoop (l : List Proxy) (i j : Nat) : List Proxy :=
  innerLoopF (l.length - j) l i j

/-- Outer `for i := 0; i < len(sorted)-1; i++` loop of `sortProxiesByPriority`
in `src/main.go`, with fuel equal to the remaining iteration count exactly as
in `innerLoopF`. -/
def outerLoopF : Nat → List Proxy → Nat → List Proxy
  | 0, l, _ => l
  | fuel + 1, l, i =>
    if i < l.length - 1 then outerLoopF fuel (innerLoop l i (i + 1)) (i + 1) else l

/-- Embeds `sortProxiesByPriority` of `src/main.go` (the `make`/`copy` pair
copies the slice, which is the identity on an immutable list). -/
def sortProxiesByPriority (l : List Proxy) : List Proxy :=
  outerLoopF (l.length - 1) l 0

/-- Embeds the filter of `loadProxiesFromGeoNode` in `src/main.go`:
`proxy.UpTime > 90 && hasValidProtocol(proxy.Protocols) && proxy.Latency < 1000`. -/
def filterGoodProxies (data : List Proxy) : List Proxy :=
  data.filter (fun p =>
    decide (90 < p.upTime) && hasValidProtocol p.protocols && decide (p.latency < 1000))

/-- Embeds the successful-fetch path of `loadProxiesFromGeoNode` in
`src/main.go`: the pool becomes the filtered candidates sorted by priority.
The parameter `data` is the parsed `data` array of the directory response. -/
def loadProxiesFromGeoNode (data : List Proxy) : List Proxy :=
  sortProxiesByPriority (filterGoodProxies data)

/-- Embeds `loadDefaultProxies` of `src/main.go` (unset Go struct fields are
zero-valued). -/
def loadDefaultProxies : List Proxy :=
  [⟨"", "104.16.202.9", "80", ["http"], 0, 100, "", "CA", "", "", 0⟩,
   ⟨"", "104.21.237.193", "80", ["http"], 0, 100, "", "CA", "", "", 0⟩]

/-- Embeds `getBestProxy` of `src/main.go`.  The global `math/rand` generator
is modelled explicitly: `g` is its state before the call, and
`rand.Seed(time.Now().UnixNano())` replaces that state with the clock value
`now`.  `randOfSeed` abstracts the generator's raw output after seeding, and
`rand.Intn(k)` is its value reduced modulo `k`. -/
def getBestProxy (randOfSeed : Nat → Nat) (pool : List Proxy) (g now : Nat) : Option Proxy :=
  if pool.length = 0 then none
  else
    let draw := randOfSeed now
    if pool.length > 3 then
      let topCount := pool.length / 4
      let topCount := if topCount < 1 then 1 else topCount
      pool[draw % topCount]?
    else
      pool[draw % pool.length]?

/-- The connection-establishment strategies `getProxyDialer` in `src/main.go`
can return: `proxy.SOCKS5`, `proxy.SOCKS4`, or the `httpConnectDialer`
fallback, each holding the proxy address. -/
inductive ProxyDialer where
  | socks5Dial (addr : String)
  | socks4Dial (addr : String)
  | httpConnectDial (addr : String)

deriving instance DecidableEq for ProxyDialer

/-- Embeds `net.JoinHostPort`: hosts containing a colon (IPv6) are bracketed
(the colon scan is modelled over the character list). -/
def joinHostPort (host port : String) : String :=
  if host.data.contains ':' then "[" ++ host ++ "]:" ++ port else host ++ ":" ++ port

/-- The protocol loop of `getProxyDialer` in `src/main.go`: for each protocol
in list order, return a SOCKS5 dialer if it equals `socks5`, a SOCKS4 dialer
if it equals `socks4`; after the loop fall back to the HTTP CONNECT dialer. -/
def pickDialer : List String → String → ProxyDialer
  | [], addr => ProxyDialer.httpConnectDial addr
  | s :: rest, addr =>
    if s = "socks5" then ProxyDialer.socks5Dial addr
    else if s = "socks4" then ProxyDialer.socks4Dial addr
    else pickDialer rest addr

/-- Embeds `getProxyDialer` of `src/main.go` (its `error` result is `nil` on
every path, so the model is total). -/
def getProxyDialer (p : Proxy) : ProxyDialer :=
  pickDialer p.protocols (joinHostPort p.ip p.port)

/-- One record per network attempt actually performed by `makeRequest`:
its 1-based number and whether it went through a proxy. -/
structure AttemptRec where
  n : Nat
  usedProxy : Bool

deriving instance DecidableEq for AttemptRec

/-- Result of the request executor: either the response object of some
attempt is returned to the caller (for a proxied attempt this happens even
when its transport failed, because the shadowed `err` is never checked — see
`makeRequestF`), or a failure response is synthesized. -/
inductive ExecResult where
  | upstream (attempt : Nat)
  | synthesized (status : Nat) (body : String)

deriving instance DecidableEq for ExecResult

/-- Body of the synthesized failure response in `makeRequest` (`src/main.go`). -/
def exhaustedBody : String := "Proxy failed to connect. Please try again later."

/-- Recursion worker for `makeRequest` of `src/main.go`.  `retries` is the Go
global `retries` (an `int`, possibly negative via the `RETRIES` environment
variable), `fails n` tells whether the network call of attempt `n` errors,
and the fuel equals `(retries + 1 - attempt).toNat`, the exact number of
remaining recursions; when it is `0` the guard `attempt > retries` holds, so
the `0` case returns exactly what the guard returns.

In the proxy branch the short variable declaration
`proxyDialer, err := getProxyDialer(proxy)` shadows the function-scope
`var err error`, and `err = proxyClient.Do(req, resp)` assigns only that
shadowed variable, so the final `if err != nil` check reads the outer `err`,
still `nil`: a proxied attempt's response is returned to the caller even when
its transport failed, and no retry ever follows a proxied attempt.
(`getProxyDialer` returns a `nil` error on every path, so the dialer-creation
retry branch is dead.)  Only direct attempts observe `fails attempt`.
Backoff sleeps have no observable effect in this model and are omitted. -/
def makeRequestF : Nat → Int → List Proxy → (Nat → Bool) → Nat → List AttemptRec × ExecResult
  | 0, _, _, _, _ => ([], ExecResult.synthesized 502 exhaustedBody)
  | fuel + 1, retries, pool, fails, attempt =>
    if (attempt : Int) > retries then ([], ExecResult.synthesized 502 exhaustedBody)
    else
      let usedProxy := decide (attempt > 1) && decide (pool.length > 0)
      if usedProxy then
        ([⟨attempt, usedProxy⟩], ExecResult.upstream attempt)
      else
        if fails attempt then
          let rest := makeRequestF fuel retries pool fails (attempt + 1)
          (⟨attempt, usedProxy⟩ :: rest.1, rest.2)
        else
          ([⟨attempt, usedProxy⟩], ExecResult.upstream attempt)

/-- Embeds `makeRequest` of `src/main.go`: returns the list of network
attempts performed (with their proxy usage) and the final response. -/
def makeRequest (retries : Int) (pool : List Proxy) (fails : Nat → Bool) (attempt : Nat) :
    List AttemptRec × ExecResult :=
  makeRequestF (retries + 1 - (attempt : Int)).toNat retries pool fails attempt

/-- Embeds `strings.SplitN(path, "/", 2)` over the characters of `path`:
split at the first `/` when present, otherwise a single chunk. -/
def splitN2 : List Char → List (List Char)
  | [] => [[]]
  | c :: rest =>
    if c = '/' then [[], rest]
    else
      match splitN2 rest with
      | [] => [[c]]
      | a :: tl => (c :: a) :: tl

/-- The outbound request `makeRequest` builds: target URL (as characters),
with the inbound method and body. -/
structure UpstreamRequest where
  url : List Char
  method : String
  body : List Char

deriving instance DecidableEq for UpstreamRequest

/-- The scheme literal of the target URL in `makeRequest` (`src/main.go`). -/
def httpsScheme : List Char := ("https://").data

/-- The fixed upstream domain glued after the subdomain in `makeRequest`
(`src/main.go`): `".roblox.com/"`. -/
def robloxDomain : List Char := (".roblox.com/").data

/-- Embeds the upstream-request construction of `makeRequest` in
`src/main.go`: `path := string(ctx.RequestURI())[1:]`,
`parts := strings.SplitN(path, "/", 2)` and
`targetURL := "https://" + parts[0] + ".roblox.com/" + parts[1]`, with the
inbound method and body copied verbatim.  `none` models the out-of-range
access `parts[1]`, unreachable after `requestHandler`'s validation. -/
def resolveUpstream (uri : List Char) (method : String) (body : List Char) :
    Option UpstreamRequest :=
  let path := uri.drop 1
  match splitN2 path with
  | s :: r :: _ => some ⟨httpsScheme ++ s ++ robloxDomain ++ r, method, body⟩
  | _ => none

/-- Modelled from the spec's words only (for comparison with the code's
`getProxyPriority`): the rank of a single protocol name under the spec's
priority `socks5 > socks4 > https > http`. -/
def protocolRank (s : String) : Nat :=
  if s = "socks5" then 4
  else if s = "socks4" then 3
  else if s = "https" then 2
  else if s = "http" then 1
  else 0

/-- Modelled from the spec's words only: the priority of the
highest-priority protocol a proxy supports, the order the spec claims the
pool is sorted by. -/
def specBestPriority (p : Proxy) : Nat :=
  p.protocols.foldr (fun s acc => max (protocolRank s) acc) 0
section SortLemmas

theorem lswap_length (l : List Proxy) (i j : Nat) : (lswap l i j).length = l.length := by
  unfold lswap
  split <;> simp

theorem lswap_get_other (l : List Proxy) (i j k : Nat) (hki : k ≠ i) (hkj : k ≠ j) :
    (lswap l i j)[k]? = l[k]? := by
  unfold lswap
  split
  · rw [List.getElem?_set_ne (by omega), List.getElem?_set_ne (by omega)]
  · rfl

theorem lswap_get_left (l : List Proxy) (i j : Nat) (hi : i < l.length) (hj : j < l.length) :
    (lswap l i j)[i]? = l[j]? := by
  have ha := List.getElem?_eq_getElem hi
  have hb := List.getElem?_eq_getElem hj
  unfold lswap
  rw [ha, hb]
  by_cases hij : i = j
  · subst hij
    rw [List.getElem?_set_self (by simpa using hi)]
  · rw [List.getElem?_set_ne (by omega), List.getElem?_set_self hi]

theorem lswap_get_right (l : List Proxy) (i j : Nat) (hi : i < l.length) (hj : j < l.length) :
    (lswap l i j)[j]? = l[i]? := by
  have ha := List.getElem?_eq_getElem hi
  have hb := List.getElem?_eq_getElem hj
  unfold lswap
  rw [ha, hb]
  rw [List.getElem?_set_self (by simpa using hj)]

theorem lswap_mem (l : List Proxy) (i j : Nat) : ∀ x ∈ lswap l i j, x ∈ l := by
  intro x hx
  unfold lswap at hx
  revert hx
  split
  · next a b ha hb =>
    intro hx
    rcases List.mem_or_eq_of_mem_set hx with hx' | rfl
    · rcases List.mem_or_eq_of_mem_set hx' with hx'' | rfl
      · exact hx''
      · exact List.getElem?_mem hb
    · exact List.getElem?_mem ha
  · exact fun hx => hx

theorem priAt_of_le (l : List Proxy) (k : Nat) (h : l.length ≤ k) : priAt l k = 0 := by
  unfold priAt
  rw [List.getElem?_eq_none h]

theorem priAt_eq_of_getElem? {l l' : List Proxy} {k m : Nat} (h : l[k]? = l'[m]?) :
    priAt l k = priAt l' m := by
  unfold priAt
  rw [h]

theorem priAt_eq_getElem (l : List Proxy) (k : Nat) (h : k < l.length) :
    priAt l k = getProxyPriority l[k] := by
  unfold priAt
  rw [List.getElem?_eq_getElem h]

theorem priAt_lswap_left (l : List Proxy) (i j : Nat) (hi : i < l.length) (hj : j < l.length) :
    priAt (lswap l i j) i = priAt l j :=
  priAt_eq_of_getElem? (lswap_get_left l i j hi hj)

theorem priAt_lswap_right (l : List Proxy) (i j : Nat) (hi : i < l.length) (hj : j < l.length) :
    priAt (lswap l i j) j = priAt l i :=
  priAt_eq_of_getElem? (lswap_get_right l i j hi hj)

theorem priAt_lswap_other (l : List Proxy) (i j k : Nat) (hki : k ≠ i) (hkj : k ≠ j) :
    priAt (lswap l i j) k = priAt l k :=
  priAt_eq_of_getElem? (lswap_get_other l i j k hki hkj)

theorem innerLoopF_length (fuel : Nat) : ∀ (l : List Proxy) (i j : Nat),
    (innerLoopF fuel l i j).length = l.length := by
  induction fuel with
  | zero => intro l i j; rfl
  | succ fuel ih =>
    intro l i j
    simp only [innerLoopF]
    split
    · rw [ih]
      split
      · exact lswap_length l i j
      · rfl
    · rfl

theorem innerLoopF_mem (fuel : Nat) : ∀ (l : List Proxy) (i j : Nat),
    ∀ x ∈ innerLoopF fuel l i j, x ∈ l := by
  induction fuel with
  | zero => intro l i j x hx; exact hx
  | succ fuel ih =>
    intro l i j x hx
    simp only [innerLoopF] at hx
    revert hx
    split
    · intro hx
      have hx' := ih _ i (j + 1) x hx
      revert hx'
      split
      · exact lswap_mem l i j x
      · exact fun hx' => hx'
    · exact fun hx => hx

theorem innerLoopF_get_below (fuel : Nat) : ∀ (l : List Proxy) (i j k : Nat),
    k ≠ i → k < j → (innerLoopF fuel l i j)[k]? = l[k]? := by
  induction fuel with
  | zero => intro l i j k _ _; rfl
  | succ fuel ih =>
    intro l i j k hki hkj
    simp only [innerLoopF]
    split
    · rw [ih _ i (j + 1) k hki (by omega)]
      split
      · exact lswap_get_other l i j k hki (by omega)
      · rfl
    · rfl

theorem innerLoopF_origin (fuel : Nat) : ∀ (l : List Proxy) (i j k : Nat),
    i < j → i ≤ k → ∃ m, i ≤ m ∧ (innerLoopF fuel l i j)[k]? = l[m]? := by
  induction fuel with
  | zero => intro l i j k _ hik; exact ⟨k, hik, rfl⟩
  | succ fuel ih =>
    intro l i j k hij hik
    simp only [innerLoopF]
    split
    · next hjlen =>
      by_cases hswap : priAt l i < priAt l j
      · rw [if_pos hswap]
        obtain ⟨m, him, hm⟩ := ih (lswap l i j) i (j + 1) k (by omega) hik
        rw [hm]
        by_cases hmi : m = i
        · refine ⟨j, by omega, ?_⟩
          rw [hmi]
          exact lswap_get_left l i j (by omega) hjlen
        · by_cases hmj : m = j
          · refine ⟨i, le_refl i, ?_⟩
            rw [hmj]
            exact lswap_get_right l i j (by omega) hjlen
          · exact ⟨m, him, lswap_get_other l i j m hmi hmj⟩
      · rw [if_neg hswap]
        exact ih l i (j + 1) k (by omega) hik
    · exact ⟨k, hik, rfl⟩

theorem innerLoopF_dom (fuel : Nat) : ∀ (l : List Proxy) (i j : Nat),
    l.length ≤ fuel + j → i < j →
    (∀ k, i < k → k < j → priAt l k ≤ priAt l i) →
    ∀ k, i < k → priAt (innerLoopF fuel l i j) k ≤ priAt (innerLoopF fuel l i j) i := by
  induction fuel with
  | zero =>
    intro l i j hlen hij hInv k hik
    show priAt l k ≤ priAt l i
    by_cases hk : k < l.length
    · exact hInv k hik (by omega)
    · rw [priAt_of_le l k (by omega)]
      exact Nat.zero_le _
  | succ fuel ih =>
    intro l i j hlen hij hInv k hik
    simp only [innerLoopF]
    split
    · next hjlen =>
      by_cases hswap : priAt l i < priAt l j
      · rw [if_pos hswap]
        refine ih (lswap l i j) i (j + 1) (by rw [lswap_length]; omega) (by omega) ?_ k hik
        intro m him hmj
        by_cases hmj' : m = j
        · rw [hmj', priAt_lswap_right l i j (by omega) hjlen,
              priAt_lswap_left l i j (by omega) hjlen]
          omega
        · rw [priAt_lswap_other l i j m (by omega) hmj',
              priAt_lswap_left l i j (by omega) hjlen]
          have := hInv m him (by omega)
          omega
      · rw [if_neg hswap]
        refine ih l i (j + 1) (by omega) (by omega) ?_ k hik
        intro m him hmj
        by_cases hmj' : m = j
        · rw [hmj']
          omega
        · exact hInv m him (by omega)
    · next hjlen =>
      by_cases hk : k < l.length
      · exact hInv k hik (by omega)
      · rw [priAt_of_le l k (by omega)]
        exact Nat.zero_le _

theorem innerLoop_length (l : List Proxy) (i j : Nat) :
    (innerLoop l i j).length = l.length :=
  innerLoopF_length (l.length - j) l i j

theorem innerLoop_mem (l : List Proxy) (i j : Nat) : ∀ x ∈ innerLoop l i j, x ∈ l :=
  innerLoopF_mem (l.length - j) l i j

theorem innerLoop_get_below (l : List Proxy) (i j k : Nat) (hki : k ≠ i) (hkj : k < j) :
    (innerLoop l i j)[k]? = l[k]? :=
  innerLoopF_get_below (l.length - j) l i j k hki hkj

theorem innerLoop_origin (l : List Proxy) (i j k : Nat) (hij : i < j) (hik : i ≤ k) :
    ∃ m, i ≤ m ∧ (innerLoop l i j)[k]? = l[m]? :=
  innerLoopF_origin (l.length - j) l i j k hij hik

theorem innerLoop_dom (l : List Proxy) (i j : Nat) (hj : j ≤ l.length) (hij : i < j)
    (hInv : ∀ k, i < k → k < j → priAt l k ≤ priAt l i) :
    ∀ k, i < k → priAt (innerLoop l i j) k ≤ priAt (innerLoop l i j) i :=
  innerLoopF_dom (l.length - j) l i j (by omega) hij hInv

theorem outerLoopF_length (fuel : Nat) : ∀ (l : List Proxy) (i : Nat),
    (outerLoopF fuel l i).length = l.length := by
  induction fuel with
  | zero => intro l i; rfl
  | succ fuel ih =>
    intro l i
    simp only [outerLoopF]
    split
    · rw [ih, innerLoop_length]
    · rfl

theorem outerLoopF_mem (fuel : Nat) : ∀ (l : List Proxy) (i : Nat),
    ∀ x ∈ outerLoopF fuel l i, x ∈ l := by
  induction fuel with
  | zero => intro l i x hx; exact hx
  | succ fuel ih =>
    intro l i x hx
    simp only [outerLoopF] at hx
    revert hx
    split
    · intro hx
      exact innerLoop_mem l i (i + 1) x (ih _ (i + 1) x hx)
    · exact fun hx => hx

theorem outerLoopF_inv (fuel : Nat) : ∀ (l : List Proxy) (i : Nat),
    l.length ≤ fuel + i + 1 →
    (∀ a b, a < i → a < b → priAt l b ≤ priAt l a) →
    ∀ a b, a < b → priAt (outerLoopF fuel l i) b ≤ priAt (outerLoopF fuel l i) a := by
  induction fuel with
  | zero =>
    intro l i hlen hInv a b hab
    show priAt l b ≤ priAt l a
    by_cases hai : a < i
    · exact hInv a b hai hab
    · rw [priAt_of_le l b (by omega)]
      exact Nat.zero_le _
  | succ fuel ih =>
    intro l i hlen hInv a b hab
    simp only [outerLoopF]
    split
    · next hguard =>
      refine ih (innerLoop l i (i + 1)) (i + 1) (by rw [innerLoop_length]; omega) ?_ a b hab
      intro a' b' ha' hab'
      by_cases hai : a' < i
      · rw [priAt_eq_of_getElem? (innerLoop_get_below l i (i + 1) a' (by omega) (by omega))]
        by_cases hbi : b' < i
        · rw [priAt_eq_of_getElem? (innerLoop_get_below l i (i + 1) b' (by omega) (by omega))]
          exact hInv a' b' hai hab'
        · obtain ⟨m, him, hm⟩ := innerLoop_origin l i (i + 1) b' (by omega) (by omega)
          rw [priAt_eq_of_getElem? hm]
          exact hInv a' m hai (by omega)
      · have hai' : a' = i := by omega
        subst hai'
        refine innerLoop_dom l a' (a' + 1) (by omega) (by omega) ?_ b' hab'
        intro m him hmj
        omega
    · next hguard =>
      by_cases hai : a < i
      · exact hInv a b hai hab
      · rw [priAt_of_le l b (by omega)]
        exact Nat.zero_le _

theorem sortProxiesByPriority_sorted_idx (l : List Proxy) :
    ∀ a b, a < b → priAt (sortProxiesByPriority l) b ≤ priAt (sortProxiesByPriority l) a := by
  refine outerLoopF_inv (l.length - 1) l 0 (by omega) ?_
  intro a b ha _
  omega

theorem sortProxiesByPriority_mem (l : List Proxy) : ∀ x ∈ sortProxiesByPriority l, x ∈ l :=
  outerLoopF_mem (l.length - 1) l 0

theorem sortProxiesByPriority_pairwise (l : List Proxy) :
    (sortProxiesByPriority l).Pairwise (fun x y => getProxyPriority y ≤ getProxyPriority x) := by
  rw [List.pairwise_iff_getElem]
  intro a b ha hb hab
  have h := sortProxiesByPriority_sorted_idx l a b hab
  rwa [priAt_eq_getElem _ b hb, priAt_eq_getElem _ a ha] at h

end SortLemmas
section ExecutorLemmas

theorem makeRequestF_allFailEmpty (fuel : Nat) : ∀ (retries : Int)
    (fails : Nat → Bool) (attempt : Nat),
    (∀ n, fails n = true) → fuel = (retries + 1 - (attempt : Int)).toNat →
    makeRequestF fuel retries [] fails attempt =
      ((List.range' attempt fuel).map (fun n => ⟨n, false⟩),
       ExecResult.synthesized 502 exhaustedBody) := by
  induction fuel with
  | zero => intro retries fails attempt _ _; rfl
  | succ fuel ih =>
    intro retries fails attempt hf hfuel
    have hat : ¬((attempt : Int) > retries) := by omega
    simp only [makeRequestF]
    rw [if_neg hat, if_neg (by simp), if_pos (hf attempt),
        ih retries fails (attempt + 1) hf (by omega),
        List.range'_succ, List.map_cons]
    simp

theorem makeRequest_allFailEmpty (retries : Int) (fails : Nat → Bool)
    (hf : ∀ n, fails n = true) (attempt : Nat) :
    makeRequest retries [] fails attempt =
      ((List.range' attempt (retries + 1 - (attempt : Int)).toNat).map (fun n => ⟨n, false⟩),
       ExecResult.synthesized 502 exhaustedBody) :=
  makeRequestF_allFailEmpty _ retries fails attempt hf rfl

theorem makeRequestF_step_direct_fail (fuel : Nat) (retries : Int) (pool : List Proxy)
    (fails : Nat → Bool) (attempt : Nat)
    (hat : ¬((attempt : Int) > retries))
    (hup : (decide (attempt > 1) && decide (pool.length > 0)) = false)
    (hfa : fails attempt = true) :
    makeRequestF (fuel + 1) retries pool fails attempt =
      ((⟨attempt, false⟩ : AttemptRec) :: (makeRequestF fuel retries pool fails (attempt + 1)).1,
       (makeRequestF fuel retries pool fails (attempt + 1)).2) := by
  simp only [makeRequestF]
  rw [if_neg hat, if_neg (by simp [hup]), if_pos hfa, hup]

theorem makeRequestF_step_proxied (fuel : Nat) (retries : Int) (pool : List Proxy)
    (fails : Nat → Bool) (attempt : Nat)
    (hat : ¬((attempt : Int) > retries))
    (hup : (decide (attempt > 1) && decide (pool.length > 0)) = true) :
    makeRequestF (fuel + 1) retries pool fails attempt =
      ([⟨attempt, true⟩], ExecResult.upstream attempt) := by
  simp only [makeRequestF]
  rw [if_neg hat, if_pos hup, hup]

theorem makeRequest_allFailProxied (retries : Int) (pool : List Proxy) (fails : Nat → Bool)
    (hf : ∀ n, fails n = true) (hpool : pool ≠ []) (hr : 2 ≤ retries) :
    makeRequest retries pool fails 1 = ([⟨1, false⟩, ⟨2, true⟩], ExecResult.upstream 2) := by
  have hlen : pool.length > 0 := List.length_pos.mpr hpool
  unfold makeRequest
  obtain ⟨fuel, hfuel⟩ : ∃ fuel, (retries + 1 - ((1 : Nat) : Int)).toNat = fuel + 1 + 1 :=
    ⟨retries.toNat - 2, by omega⟩
  rw [hfuel,
      makeRequestF_step_direct_fail (fuel + 1) retries pool fails 1 (by omega) (by simp) (hf 1),
      makeRequestF_step_proxied fuel retries pool fails (1 + 1) (by omega) (by simp [hlen])]

theorem makeRequestF_usedProxy (fuel : Nat) : ∀ (retries : Int) (pool : List Proxy)
    (fails : Nat → Bool) (attempt : Nat) (a : AttemptRec),
    a ∈ (makeRequestF fuel retries pool fails attempt).1 →
    a.usedProxy = (decide (a.n > 1) && decide (pool.length > 0)) := by
  induction fuel with
  | zero => intro _ _ _ _ a ha; simp [makeRequestF] at ha
  | succ fuel ih =>
    intro retries pool fails attempt a ha
    simp only [makeRequestF] at ha
    by_cases hat : (attempt : Int) > retries
    · rw [if_pos hat] at ha
      simp at ha
    · rw [if_neg hat] at ha
      by_cases hup : (decide (attempt > 1) && decide (pool.length > 0)) = true
      · rw [if_pos hup] at ha
        rcases List.mem_cons.mp ha with rfl | ha'
        · rfl
        · simp at ha'
      · rw [if_neg hup] at ha
        by_cases hfa : fails attempt
        · rw [if_pos hfa] at ha
          rcases List.mem_cons.mp ha with rfl | ha'
          · rfl
          · exact ih retries pool fails (attempt + 1) a ha'
        · rw [if_neg hfa] at ha
          rcases List.mem_cons.mp ha with rfl | ha'
          · rfl
          · simp at ha'

end ExecutorLemmas

section DialerLemmas

theorem pickDialer_eq_find (ps : List String) (addr : String) :
    pickDialer ps addr =
      (match ps.find? (fun s => s = "socks5" || s = "socks4") with
       | some s =>
         if s = "socks5" then ProxyDialer.socks5Dial addr else ProxyDialer.socks4Dial addr
       | none => ProxyDialer.httpConnectDial addr) := by
  induction ps with
  | nil => rfl
  | cons s rest ih =>
    simp only [pickDialer, List.find?]
    by_cases h5 : s = "socks5"
    · simp [h5]
    · by_cases h4 : s = "socks4"
      · simp [h4, h5]
      · simp only [h5, h4, decide_False, Bool.or_false, if_false]
        simpa using ih

end DialerLemmas

section TranslationLemmas

theorem splitN2_append (sub rest : List Char) (hsub : '/' ∉ sub) :
    splitN2 (sub ++ '/' :: rest) = [sub, rest] := by
  induction sub with
  | nil => simp [splitN2]
  | cons c cs ih =>
    have hc : c ≠ '/' := fun h => hsub (by rw [h]; exact List.mem_cons_self _ _)
    simp only [List.cons_append, splitN2, List.append_eq]
    rw [if_neg hc, ih (fun h => hsub (List.mem_cons_of_mem c h))]

end TranslationLemmas

section SelectorLemmas

theorem getBestProxy_eq (f : Nat → Nat) (pool : List Proxy) (g now : Nat)
    (h0 : pool.length ≠ 0) :
    getBestProxy f pool g now =
      (if pool.length > 3 then pool[(f now) % (max 1 (pool.length / 4))]?
       else pool[(f now) % pool.length]?) := by
  simp only [getBestProxy]
  rw [if_neg h0]
  by_cases h3 : pool.length > 3
  · rw [if_pos h3, if_pos h3]
    have hmax : (if pool.length / 4 < 1 then 1 else pool.length / 4)
        = max 1 (pool.length / 4) := by
      by_cases h : pool.length / 4 < 1
      · rw [if_pos h]
        omega
      · rw [if_neg h]
        omega
    rw [hmax]
  · rw [if_neg h3, if_neg h3]

end SelectorLemmas
section ConcreteInputs

/-- Fixture: proxy whose protocol list puts `http` before `socks5`. -/
def pMixed : Proxy := ⟨"", "1.1.1.1", "80", ["http", "socks5"], 0, 100, "", "", "", "", 0⟩

/-- Fixture: proxy supporting only `socks4`. -/
def pSocks4 : Proxy := ⟨"", "2.2.2.2", "80", ["socks4"], 0, 100, "", "", "", "", 0⟩

/-- Fixture: directory candidate with good quality signals but empty address
and port. -/
def pNoAddr : Proxy := ⟨"", "", "", ["socks5"], 0, 95, "", "", "", "", 0⟩

/-- Fixture: well-formed directory candidate. -/
def pGoodC2 : Proxy := ⟨"", "5.5.5.5", "1080", ["socks5"], 10, 99, "", "", "", "", 0⟩

/-- Fixture: proxy listing `socks4` before `socks5`. -/
def pSocksOrder : Proxy := ⟨"", "1.2.3.4", "1080", ["socks4", "socks5"], 0, 100, "", "", "", "", 0⟩

/-- Fixture: plain http proxy used in executor witnesses. -/
def pW : Proxy := ⟨"", "9.9.9.9", "80", ["http"], 0, 100, "", "", "", "", 0⟩

/-- Fixtures: two distinguishable proxies for selector claims. -/
def pX : Proxy := ⟨"", "10.0.0.1", "80", ["http"], 0, 100, "", "", "", "", 0⟩

/-- Second distinguishable proxy for selector claims. -/
def pY : Proxy := ⟨"", "10.0.0.2", "80", ["http"], 0, 100, "", "", "", "", 0⟩

/-- Fixture: a pool of eight distinct proxies (top quartile has size 2). -/
def pool8 : List Proxy :=
  [⟨"", "10.0.1.1", "80", ["socks5"], 0, 100, "", "", "", "", 0⟩,
   ⟨"", "10.0.1.2", "80", ["socks5"], 0, 100, "", "", "", "", 0⟩,
   ⟨"", "10.0.1.3", "80", ["socks4"], 0, 100, "", "", "", "", 0⟩,
   ⟨"", "10.0.1.4", "80", ["socks4"], 0, 100, "", "", "", "", 0⟩,
   ⟨"", "10.0.1.5", "80", ["https"], 0, 100, "", "", "", "", 0⟩,
   ⟨"", "10.0.1.6", "80", ["https"], 0, 100, "", "", "", "", 0⟩,
   ⟨"", "10.0.1.7", "80", ["http"], 0, 100, "", "", "", "", 0⟩,
   ⟨"", "10.0.1.8", "80", ["http"], 0, 100, "", "", "", "", 0⟩]

/-- The second entry of `pool8`. -/
def p8b : Proxy := ⟨"", "10.0.1.2", "80", ["socks5"], 0, 100, "", "", "", "", 0⟩

end ConcreteInputs

/-- C1, counterexample to the claim as stated, in both directions.  With a
non-empty pool, `maxRetries = 2` and every transport failing, the executor
returns the proxied attempt 2's response as a success after two attempts and
never synthesizes a failure response at all (the shadowed `err` hides proxied
transport failures).  With an empty pool and `maxRetries = 1`, the
synthesized 502 is returned after one network attempt, not after
`maxRetries + 1 = 2`. -/
theorem C1_counterexample :
    (makeRequest 2 [pW] (fun _ => true) 1).2 = ExecResult.upstream 2 ∧
    (∀ s b, (makeRequest 2 [pW] (fun _ => true) 1).2 ≠ ExecResult.synthesized s b) ∧
    (makeRequest 2 [pW] (fun _ => true) 1).1.length = 2 ∧
    (makeRequest 1 [] (fun _ => true) 1).1.length = 1 ∧
    (makeRequest 1 [] (fun _ => true) 1).2 = ExecResult.synthesized 502 exhaustedBody := by
  refine ⟨by decide, ?_, by decide, by decide, by decide⟩
  intro s b h
  have he : (makeRequest 2 [pW] (fun _ => true) 1).2 = ExecResult.upstream 2 := by decide
  rw [he] at h
  exact ExecResult.noConfusion h

/-- C1 (amended): when every attempt ends in a transport failure, the
executor's behaviour splits on the pool.  With an empty pool it returns
exactly one synthesized 502 after `maxRetries` (the configured `retries`
value, not `maxRetries + 1`) consecutive failed direct attempts, each
numbered between 1 and `retries`, and makes no further attempt.  With a
non-empty pool and `maxRetries ≥ 2` it performs the failing direct attempt 1,
then returns the proxied attempt 2's response as a success — the shadowed
`err` never surfaces proxied transport failures, so no synthesized failure
response is produced and no further attempt occurs. -/
theorem C1_theorem (retries : Int) (pool : List Proxy) (fails : Nat → Bool)
    (hf : ∀ n, fails n = true) :
    (pool = [] →
      (makeRequest retries pool fails 1).2 = ExecResult.synthesized 502 exhaustedBody ∧
      (makeRequest retries pool fails 1).1.length = retries.toNat ∧
      (∀ a ∈ (makeRequest retries pool fails 1).1, 1 ≤ a.n ∧ (a.n : Int) ≤ retries)) ∧
    (pool ≠ [] → 2 ≤ retries →
      makeRequest retries pool fails 1 = ([⟨1, false⟩, ⟨2, true⟩], ExecResult.upstream 2)) := by
  constructor
  · rintro rfl
    have h := makeRequest_allFailEmpty retries fails hf 1
    refine ⟨by rw [h], ?_, ?_⟩
    · rw [h]
      simp only [List.length_map, List.length_range']
      omega
    · intro a ha
      rw [h] at ha
      simp only [List.mem_map] at ha
      obtain ⟨n, hn, rfl⟩ := ha
      rw [List.mem_range'_1] at hn
      show 1 ≤ n ∧ (n : Int) ≤ retries
      omega
  · intro hpool hr
    exact makeRequest_allFailProxied retries pool fails hf hpool hr

/-- C1 witness: the amended theorem applied at `retries = 2` with an
always-failing transport, once with the empty pool and once with the
one-proxy pool `[pW]`. -/
theorem C1_witness :
    ((makeRequest 2 ([] : List Proxy) (fun _ => true) 1).2
        = ExecResult.synthesized 502 exhaustedBody ∧
      (makeRequest 2 ([] : List Proxy) (fun _ => true) 1).1.length = (2 : Int).toNat ∧
      (∀ a ∈ (makeRequest 2 ([] : List Proxy) (fun _ => true) 1).1,
        1 ≤ a.n ∧ (a.n : Int) ≤ 2)) ∧
    makeRequest 2 [pW] (fun _ => true) 1 = ([⟨1, false⟩, ⟨2, true⟩], ExecResult.upstream 2) :=
  ⟨(C1_theorem 2 [] (fun _ => true) (fun _ => rfl)).1 rfl,
   (C1_theorem 2 [pW] (fun _ => true) (fun _ => rfl)).2 (by decide) (by decide)⟩

/-- C2, counterexample to the claim as stated: a directory candidate with
empty address and empty port but good quality signals is admitted into the
pool by the load filter. -/
theorem C2_counterexample :
    pNoAddr ∈ loadProxiesFromGeoNode [pNoAddr] ∧ pNoAddr.ip = "" ∧ pNoAddr.port = "" := by
  refine ⟨by decide, rfl, rfl⟩

/-- C2 (amended): every proxy in the pool after a directory load has at least
one protocol drawn from \x7bhttp, https, socks4, socks5\x7d, and every proxy of
the hardcoded default list additionally has a non-empty address and port; the
load filter does not check address or port non-emptiness for directory
candidates. -/
theorem C2_theorem (data : List Proxy) :
    (∀ p ∈ loadProxiesFromGeoNode data, hasValidProtocol p.protocols = true) ∧
    (∀ p ∈ loadDefaultProxies,
      p.ip ≠ "" ∧ p.port ≠ "" ∧ hasValidProtocol p.protocols = true) := by
  constructor
  · intro p hp
    have hp' := sortProxiesByPriority_mem _ p hp
    unfold filterGoodProxies at hp'
    rw [List.mem_filter] at hp'
    have hpred := hp'.2
    simp only [Bool.and_eq_true] at hpred
    exact hpred.1.2
  · decide

/-- C2 witness: the amended theorem applied to the singleton directory
response containing `pGoodC2`. -/
theorem C2_witness : hasValidProtocol pGoodC2.protocols = true :=
  (C2_theorem [pGoodC2]).1 pGoodC2 (by decide)

/-- C3, counterexample to the claim as stated: `pMixed` supports `socks5`
(spec best priority 4) and `pSocks4` only `socks4` (spec best priority 3),
yet the sorted pool places `pSocks4` first, because the code ranks a proxy by
the first recognized protocol in list order (`http` for `pMixed`). -/
theorem C3_counterexample :
    "socks5" ∈ pMixed.protocols ∧
    specBestPriority pMixed = 4 ∧ specBestPriority pSocks4 = 3 ∧
    sortProxiesByPriority [pMixed, pSocks4] = [pSocks4, pMixed] ∧
    ¬ (sortProxiesByPriority [pMixed, pSocks4]).Pairwise
        (fun x y => specBestPriority y ≤ specBestPriority x) := by
  refine ⟨by decide, by decide, by decide, by decide, by decide⟩

/-- C3 (amended): the pool produced at load time is ordered non-increasingly
by `getProxyPriority`, the priority of the first recognized protocol in each
proxy's list order (not of the highest-priority protocol it supports). -/
theorem C3_theorem (l : List Proxy) :
    (sortProxiesByPriority l).Pairwise
      (fun x y => getProxyPriority y ≤ getProxyPriority x) :=
  sortProxiesByPriority_pairwise l

/-- C4, counterexample to the claim as stated: a proxy listing
`["socks4", "socks5"]` contains `socks5`, yet the factory returns the SOCKS4
dialer, because the loop takes the first SOCKS protocol in list order. -/
theorem C4_counterexample :
    "socks5" ∈ pSocksOrder.protocols ∧
    getProxyDialer pSocksOrder
      = ProxyDialer.socks4Dial (joinHostPort pSocksOrder.ip pSocksOrder.port) ∧
    ∀ addr, getProxyDialer pSocksOrder ≠ ProxyDialer.socks5Dial addr := by
  refine ⟨by decide, by decide, ?_⟩
  intro addr h
  have he : getProxyDialer pSocksOrder
      = ProxyDialer.socks4Dial (joinHostPort pSocksOrder.ip pSocksOrder.port) := by decide
  rw [he] at h
  exact ProxyDialer.noConfusion h

/-- C4 (amended): the dialer factory scans the proxy's protocol list in order
and returns a SOCKS5 or SOCKS4 dialer for the first protocol equal to
`socks5` or `socks4`, falling back to the HTTP CONNECT dialer when neither
occurs; the listed order, not a fixed priority, decides between the two SOCKS
variants. -/
theorem C4_theorem (p : Proxy) :
    getProxyDialer p =
      (match p.protocols.find? (fun s => s = "socks5" || s = "socks4") with
       | some s =>
         if s = "socks5" then ProxyDialer.socks5Dial (joinHostPort p.ip p.port)
         else ProxyDialer.socks4Dial (joinHostPort p.ip p.port)
       | none => ProxyDialer.httpConnectDial (joinHostPort p.ip p.port)) :=
  pickDialer_eq_find p.protocols (joinHostPort p.ip p.port)

/-- C6, counterexample to the claim as stated: on a pool of two distinct
proxies the selector can return the second entry, which is outside the first
`max 1 (n / 4) = 1` entries, because pools of size at most 3 are sampled
uniformly across the whole pool. -/
theorem C6_counterexample :
    getBestProxy id [pX, pY] 0 1 = some pY ∧
    pY ∉ ([pX, pY] : List Proxy).take (max 1 (([pX, pY] : List Proxy).length / 4)) := by
  refine ⟨by decide, by decide⟩

/-- C6 (amended): the selector returns none exactly when the pool is empty
and always returns an element of the pool; the top-quartile window
`max 1 (n / 4)` constrains the choice only when the pool has more than three
entries, while pools of size 1 to 3 are sampled across the whole pool. -/
theorem C6_theorem (f : Nat → Nat) (pool : List Proxy) (g now : Nat) :
    (getBestProxy f pool g now = none ↔ pool = []) ∧
    (∀ p, getBestProxy f pool g now = some p → p ∈ pool) ∧
    (3 < pool.length → ∀ p, getBestProxy f pool g now = some p →
      p ∈ pool.take (max 1 (pool.length / 4))) := by
  by_cases h0 : pool.length = 0
  · have hpool : pool = [] := List.length_eq_zero.mp h0
    subst hpool
    refine ⟨by simp [getBestProxy], ?_, ?_⟩
    · intro p hp
      simp [getBestProxy] at hp
    · intro h3
      simp at h3
  · have he := getBestProxy_eq f pool g now h0
    refine ⟨?_, ?_, ?_⟩
    · rw [he]
      constructor
      · intro hnone
        exfalso
        by_cases h3 : pool.length > 3
        · rw [if_pos h3] at hnone
          have hwin : max 1 (pool.length / 4) ≤ pool.length := by omega
          have hlt : (f now) % (max 1 (pool.length / 4)) < pool.length := by
            have := Nat.mod_lt (f now) (y := max 1 (pool.length / 4)) (by omega)
            omega
          rw [List.getElem?_eq_getElem hlt] at hnone
          exact Option.noConfusion hnone
        · rw [if_neg h3] at hnone
          have hlt : (f now) % pool.length < pool.length := Nat.mod_lt _ (by omega)
          rw [List.getElem?_eq_getElem hlt] at hnone
          exact Option.noConfusion hnone
      · intro hp
        rw [hp] at h0
        simp at h0
    · intro p hp
      rw [he] at hp
      by_cases h3 : pool.length > 3
      · rw [if_pos h3] at hp
        exact List.getElem?_mem hp
      · rw [if_neg h3] at hp
        exact List.getElem?_mem hp
    · intro h3 p hp
      rw [he, if_pos h3] at hp
      have hlt : (f now) % (max 1 (pool.length / 4)) < max 1 (pool.length / 4) :=
        Nat.mod_lt _ (by omega)
      have htake : (pool.take (max 1 (pool.length / 4)))[(f now) % (max 1 (pool.length / 4))]?
          = some p := by
        rw [List.getElem?_take_of_lt hlt]
        exact hp
      exact List.getElem?_mem htake

/-- C6 witness: the amended theorem applied to the eight-element pool
`pool8`, where the selected proxy lies in the top-quartile window. -/
theorem C6_witness : p8b ∈ pool8.take (max 1 (pool8.length / 4)) :=
  (C6_theorem id pool8 0 1).2.2 (by decide) p8b (by decide)

/-- C7: every attempt recorded by the request executor uses a proxy if and
only if its number exceeds 1 and the pool is non-empty; in particular attempt
1 never uses a proxy. -/
theorem C7_theorem (retries : Int) (pool : List Proxy) (fails : Nat → Bool) (attempt : Nat)
    (a : AttemptRec) (ha : a ∈ (makeRequest retries pool fails attempt).1) :
    (a.n = 1 → a.usedProxy = false) ∧
    (1 < a.n → (a.usedProxy = true ↔ pool ≠ [])) := by
  have h := makeRequestF_usedProxy _ retries pool fails attempt a ha
  constructor
  · intro h1
    rw [h, h1]
    simp
  · intro h1
    rw [h]
    simp [h1, List.length_pos]

/-- C7 witness: applied to the trace of a run with `retries = 2`, a one-proxy
pool and failing transport, whose second attempt is `⟨2, true⟩`. -/
theorem C7_witness :
    ((AttemptRec.mk 2 true).n = 1 → (AttemptRec.mk 2 true).usedProxy = false) ∧
    (1 < (AttemptRec.mk 2 true).n →
      ((AttemptRec.mk 2 true).usedProxy = true ↔ [pW] ≠ ([] : List Proxy))) :=
  C7_theorem 2 [pW] (fun _ => true) 1 (AttemptRec.mk 2 true) (by decide)

/-- C8, counterexample to the claim as stated: with the same pool and the
same prior generator state, runs of the selector at wall-clock times 0 and 1
produce different choices, because `getBestProxy` re-seeds the generator from
the clock on every call. -/
theorem C8_counterexample :
    getBestProxy id [pX, pY] 7 0 ≠ getBestProxy id [pX, pY] 7 1 := by
  decide

/-- C8 (amended): the selector re-seeds the shared generator from the current
wall-clock time on every call, so its choice is independent of the generator
state before the call and is determined by the pool and the clock value. -/
theorem C8_theorem (f : Nat → Nat) (pool : List Proxy) (g g2 now : Nat) :
    getBestProxy f pool g now = getBestProxy f pool g2 now := rfl

/-- C9: for every inbound URI whose path has at least two segments, the
resolved upstream request targets
`https://{first-segment}.roblox.com/{rest}` with the inbound method and body
copied verbatim. -/
theorem C9_theorem (sub rest : List Char) (method : String) (body : List Char)
    (hsub : '/' ∉ sub) :
    resolveUpstream ('/' :: (sub ++ '/' :: rest)) method body =
      some ⟨httpsScheme ++ sub ++ robloxDomain ++ rest, method, body⟩ := by
  unfold resolveUpstream
  simp only [List.drop_succ_cons, List.drop_zero]
  rw [splitN2_append sub rest hsub]

/-- C9 witness: inbound path `/users/v1/abc` resolves to
`https://users.roblox.com/v1/abc`. -/
theorem C9_witness :
    resolveUpstream ('/' :: (("users").data ++ '/' :: ("v1/abc").data)) ("GET") [] =
      some ⟨httpsScheme ++ ("users").data ++ robloxDomain ++ ("v1/abc").data, "GET", []⟩ :=
  C9_theorem ("users").data ("v1/abc").data ("GET") [] (by decide)

/-- C10: when the configured maximum retry count is zero or negative, the
request executor immediately returns the synthesized 502 response with an
empty attempt trace — not even the direct attempt 1 occurs. -/
theorem C10_theorem (retries : Int) (pool : List Proxy) (fails : Nat → Bool)
    (hr : retries ≤ 0) :
    makeRequest retries pool fails 1 = ([], ExecResult.synthesized 502 exhaustedBody) := by
  unfold makeRequest
  have h : (retries + 1 - ((1 : Nat) : Int)).toNat = 0 := by omega
  rw [h]
  rfl

/-- C10 witness: the theorem applied at `retries = 0` with an arbitrary pool
and failure oracle. -/
theorem C10_witness :
    makeRequest 0 [pW] (fun _ => true) 1 = ([], ExecResult.synthesized 502 exhaustedBody) :=
  C10_theorem 0 [pW] (fun _ => true) (by decide)
